import Mathlib

/-!
Verification of the stateful map adapters (`MapWith`, `MapInit`) of
`src/src/iter/map_with.rs`, a shallow embedding of the Rust source.

Modelling conventions:
* Rust closures with side effects (an initializer or mapping function
  instrumented with a call counter) are embedded in the state monad
  `Cnt α = Nat → α × Nat` threading the global invocation counter.
* `Fn(&mut U, T) -> R` becomes `U → T → Cnt (U × R)`: the mutable state is
  threaded explicitly, and the counter records the closure's own effects.
* The generic base `Producer` of the adapters is instantiated with its
  canonical indexed instance, a list of items: `into_iter` is the list
  itself (front to back), `split_at i` is `take i / drop i`, and
  `fold_with` feeds the items into a folder one at a time by `consume`
  (the contract of the plumbing layer, which is not part of this crate).
* The generic downstream `Folder` / `Consumer` are abstract operation
  records (`FolderOps`, `ConsumerOps`) over opaque state types.
-/

set_option maxHeartbeats 1000000

namespace RayonMapWith

/-- Counter-instrumented computation: a value whose production may bump a
global invocation counter, modelling a Rust closure instrumented with a
call counter. -/
def Cnt (α : Type) : Type := Nat → α × Nat

variable {T U R S Res Cs Red : Type}

/-- A counting mapping closure built from a pure function: every call bumps
the counter by one and otherwise behaves like the pure function. -/
def liftC (g : U → T → U × R) : U → T → Cnt (U × R) := fun u t n => (g u t, n + 1)

/-- A silent mapping closure built from a pure function: calls leave the
counter untouched (used when the counter is reserved for the initializer). -/
def liftP (g : U → T → U × R) : U → T → Cnt (U × R) := fun u t n => (g u t, n)

/-- A counting initializer: every call returns the fixed fresh state `u0`
and bumps the counter by one. -/
def initC (u0 : U) : Cnt U := fun n => (u0, n + 1)

/-- Sequential stateful map of an instrumented closure over a list,
threading the branch state and the invocation counter through the items in
order; the reference semantics of draining one leaf branch. -/
def mapAccum (f : U → T → Cnt (U × R)) : U → List T → Cnt (U × List R)
  | u, [] => fun n => ((u, []), n)
  | u, t :: ts => fun n =>
      let p := f u t n
      let q := mapAccum f p.1.1 ts p.2
      ((q.1.1, p.1.2 :: q.1.2), q.2)

/-- Pure sequential stateful map: a fresh state `u` observes exactly the
items of the list, in order, and each item's mapped value is produced from
the state as mutated by the items before it. -/
def seqRun (g : U → T → U × R) : U → List T → U × List R
  | u, [] => (u, [])
  | u, t :: ts =>
      let p := g u t
      let q := seqRun g p.1 ts
      (q.1, p.2 :: q.2)

theorem mapAccum_liftP (g : U → T → U × R) (u : U) (l : List T) (n : Nat) :
    mapAccum (liftP g) u l n = (seqRun g u l, n) := by
  induction l generalizing u n with
  | nil => rfl
  | cons t ts ih => simp [mapAccum, seqRun, liftP, ih]

theorem mapAccum_liftC (g : U → T → U × R) (u : U) (l : List T) (n : Nat) :
    mapAccum (liftC g) u l n = (seqRun g u l, n + l.length) := by
  induction l generalizing u n with
  | nil => rfl
  | cons t ts ih =>
      simp [mapAccum, seqRun, liftC, ih]
      omega

/-- Size hint of the base sequential iterator of a list producer: an exact
count of the remaining items (source: `ExactSizeIterator` of slices). -/
def listSizeHint (l : List T) : Nat × Option Nat := (l.length, some l.length)

/-- Leaf iterator shared by `MapWith` and `MapInit`
(source: `struct MapWithIter`). -/
structure MapWithIter (T U R : Type) where
  base : List T
  item : U
  map_op : U → T → Cnt (U × R)

/-- Source `MapWithIter::next`: pull the next base item from the front and
map it with mutable access to the branch-local state. -/
def MapWithIter.next (it : MapWithIter T U R) : Cnt (Option R × MapWithIter T U R) :=
  match it.base with
  | [] => fun n => ((none, it), n)
  | t :: ts => fun n =>
      let p := it.map_op it.item t n
      ((some p.1.2, ⟨ts, p.1.1, it.map_op⟩), p.2)

/-- Source `MapWithIter::next_back`: pull the last remaining base item and
map it with mutable access to the same branch-local state. -/
def MapWithIter.next_back (it : MapWithIter T U R) : Cnt (Option R × MapWithIter T U R) :=
  match it.base.getLast? with
  | none => fun n => ((none, it), n)
  | some t => fun n =>
      let p := it.map_op it.item t n
      ((some p.1.2, ⟨it.base.dropLast, p.1.1, it.map_op⟩), p.2)

/-- Source `MapWithIter::size_hint`: delegates to the base iterator's size
hint unchanged. -/
def MapWithIter.size_hint (it : MapWithIter T U R) : Nat × Option Nat :=
  listSizeHint it.base

/-- Drain an iterator front to back by repeated `next`, collecting the
mapped values; `fuel` bounds the number of pulls. -/
def drainF : Nat → MapWithIter T U R → Cnt (List R)
  | 0, _ => fun n => ([], n)
  | k + 1, it => fun n =>
      let p := it.next n
      match p.1.1 with
      | none => ([], p.2)
      | some r =>
          let q := drainF k p.1.2 p.2
          (r :: q.1, q.2)

/-- Drain an iterator back to front by repeated `next_back`, collecting the
mapped values in pull order; `fuel` bounds the number of pulls. -/
def drainB : Nat → MapWithIter T U R → Cnt (List R)
  | 0, _ => fun n => ([], n)
  | k + 1, it => fun n =>
      let p := it.next_back n
      match p.1.1 with
      | none => ([], p.2)
      | some r =>
          let q := drainB k p.1.2 p.2
          (r :: q.1, q.2)

theorem drainF_eq_mapAccum (f : U → T → Cnt (U × R)) (u : U) (l : List T) (n : Nat) :
    drainF l.length ⟨l, u, f⟩ n = ((mapAccum f u l n).1.2, (mapAccum f u l n).2) := by
  induction l generalizing u n with
  | nil => rfl
  | cons t ts ih => simp [drainF, MapWithIter.next, mapAccum, ih]

/-- Abstract downstream folder: the behavior of the wrapped `Folder<R>`
with folder state `S` and final result `Res` (source trait `Folder`). -/
structure FolderOps (R S Res : Type) where
  consume : S → R → S
  consume_iter : S → List R → S
  complete : S → Res
  full : S → Bool

/-- Composite folder of both adapters (source: `struct MapWithFolder`),
wrapping the downstream folder state together with the branch-local state
and the mapping closure. -/
structure MapWithFolder (T U R S : Type) where
  base : S
  item : U
  map_op : U → T → Cnt (U × R)

/-- Source `MapWithFolder::consume`: apply the mapping closure with mutable
access to the branch state, then feed the mapped item to the wrapped
downstream folder. -/
def MapWithFolder.consume (ops : FolderOps R S Res) (fl : MapWithFolder T U R S)
    (t : T) : Cnt (MapWithFolder T U R S) := fun n =>
  let p := fl.map_op fl.item t n
  (⟨ops.consume fl.base p.1.2, p.1.1, fl.map_op⟩, p.2)

/-- Source `MapWithFolder::consume_iter`: map the incoming sequence with
the branch state and feed the mapped sequence to the downstream folder's
bulk `consume_iter`. -/
def MapWithFolder.consume_iter (ops : FolderOps R S Res) (fl : MapWithFolder T U R S)
    (l : List T) : Cnt (MapWithFolder T U R S) := fun n =>
  let p := mapAccum fl.map_op fl.item l n
  (⟨ops.consume_iter fl.base p.1.2, p.1.1, fl.map_op⟩, p.2)

/-- Source `MapWithFolder::complete`: delegate to the downstream folder. -/
def MapWithFolder.complete (ops : FolderOps R S Res) (fl : MapWithFolder T U R S) : Res :=
  ops.complete fl.base

/-- Source `MapWithFolder::full`: delegate to the downstream folder. -/
def MapWithFolder.full (ops : FolderOps R S Res) (fl : MapWithFolder T U R S) : Bool :=
  ops.full fl.base

/-- Repeated `MapWithFolder::consume` over a list of items, the semantics
of the base list producer's `fold_with` against the composite folder. -/
def foldConsume (ops : FolderOps R S Res) :
    MapWithFolder T U R S → List T → Cnt (MapWithFolder T U R S)
  | fl, [] => fun n => (fl, n)
  | fl, t :: ts => fun n =>
      let p := MapWithFolder.consume ops fl t n
      foldConsume ops p.1 ts p.2

theorem foldConsume_eq_mapAccum (ops : FolderOps R S Res) (f : U → T → Cnt (U × R))
    (s : S) (u : U) (l : List T) (n : Nat) :
    foldConsume ops ⟨s, u, f⟩ l n =
      (⟨List.foldl ops.consume s (mapAccum f u l n).1.2, (mapAccum f u l n).1.1, f⟩,
        (mapAccum f u l n).2) := by
  induction l generalizing s u n with
  | nil => rfl
  | cons t ts ih => simp [foldConsume, MapWithFolder.consume, mapAccum, ih]

/-- Producer of `MapWith` (source: `struct MapWithProducer`), over the
canonical list base producer. -/
structure MapWithProducer (T U R : Type) where
  base : List T
  item : U
  map_op : U → T → Cnt (U × R)

/-- Source `MapWithProducer::into_iter`: the already-held branch state is
carried into the leaf iterator; no closure is invoked. -/
def MapWithProducer.into_iter (p : MapWithProducer T U R) : MapWithIter T U R :=
  ⟨p.base, p.item, p.map_op⟩

/-- Source `MapWithProducer::split_at`: split the base producer; the left
branch receives a clone of the state, the right branch the original (in
this value model the clone is the same value); neither closure is
invoked, so the counter is untouched. -/
def MapWithProducer.split_at (p : MapWithProducer T U R) (i : Nat) :
    Cnt (MapWithProducer T U R × MapWithProducer T U R) := fun n =>
  ((⟨p.base.take i, p.item, p.map_op⟩, ⟨p.base.drop i, p.item, p.map_op⟩), n)

/-- Source `MapWithProducer::fold_with`: wrap the downstream folder into a
`MapWithFolder` carrying the branch state, let the base producer fold into
it, and return the unwrapped downstream folder state. -/
def MapWithProducer.fold_with (ops : FolderOps R S Res) (p : MapWithProducer T U R)
    (s : S) : Cnt S := fun n =>
  let q := foldConsume ops ⟨s, p.item, p.map_op⟩ p.base n
  (q.1.base, q.2)

/-- Producer of `MapInit` (source: `struct MapInitProducer`): holds the
shared initializer by reference; no branch state exists yet. -/
structure MapInitProducer (T U R : Type) where
  base : List T
  init : Cnt U
  map_op : U → T → Cnt (U × R)

/-- Source `MapInitProducer::into_iter`: the branch state is created here,
by one invocation of the initializer, before any item is pulled. -/
def MapInitProducer.into_iter (p : MapInitProducer T U R) : Cnt (MapWithIter T U R) :=
  fun n =>
    let q := p.init n
    (⟨p.base, q.1, p.map_op⟩, q.2)

/-- Source `MapInitProducer::split_at`: split the base producer; both
branches share the initializer by reference and no closure is invoked. -/
def MapInitProducer.split_at (p : MapInitProducer T U R) (i : Nat) :
    Cnt (MapInitProducer T U R × MapInitProducer T U R) := fun n =>
  ((⟨p.base.take i, p.init, p.map_op⟩, ⟨p.base.drop i, p.init, p.map_op⟩), n)

/-- Source `MapInitProducer::fold_with`: the branch state is created here
by one invocation of the initializer, then as for `MapWith`. -/
def MapInitProducer.fold_with (ops : FolderOps R S Res) (p : MapInitProducer T U R)
    (s : S) : Cnt S := fun n =>
  let q := p.init n
  let q2 := foldConsume ops ⟨s, q.1, p.map_op⟩ p.base q.2
  (q2.1.base, q2.2)

/-- Abstract downstream consumer: the behavior of the wrapped `Consumer<R>`
with consumer state `Cs`, folder state `S`, result `Res`, reducer `Red`
(source traits `Consumer` and `UnindexedConsumer`). -/
structure ConsumerOps (R Cs S Res Red : Type) where
  split_at : Cs → Nat → Cs × Cs × Red
  into_folder : Cs → S
  full : Cs → Bool
  split_off_left : Cs → Cs
  to_reducer : Cs → Red
  fops : FolderOps R S Res

/-- Consumer of `MapWith` (source: `struct MapWithConsumer`). -/
structure MapWithConsumer (T U R Cs : Type) where
  base : Cs
  item : U
  map_op : U → T → Cnt (U × R)

/-- Source `MapWithConsumer::split_at`: split the downstream consumer and
pass its reducer through; the left branch receives a clone of the state,
the right the original; no closure is invoked. -/
def MapWithConsumer.split_at (ops : ConsumerOps R Cs S Res Red)
    (c : MapWithConsumer T U R Cs) (i : Nat) :
    Cnt (MapWithConsumer T U R Cs × MapWithConsumer T U R Cs × Red) := fun n =>
  let p := ops.split_at c.base i
  ((⟨p.1, c.item, c.map_op⟩, ⟨p.2.1, c.item, c.map_op⟩, p.2.2), n)

/-- Source `MapWithConsumer::into_folder`: carry the already-held state
into the composite folder; no closure is invoked. -/
def MapWithConsumer.into_folder (ops : ConsumerOps R Cs S Res Red)
    (c : MapWithConsumer T U R Cs) : Cnt (MapWithFolder T U R S) := fun n =>
  (⟨ops.into_folder c.base, c.item, c.map_op⟩, n)

/-- Source `MapWithConsumer::full`: delegate to the downstream consumer. -/
def MapWithConsumer.full (ops : ConsumerOps R Cs S Res Red)
    (c : MapWithConsumer T U R Cs) : Bool :=
  ops.full c.base

/-- Source `MapWithConsumer::split_off_left`: peel off the downstream left
consumer, giving it a clone of the state; no closure is invoked. -/
def MapWithConsumer.split_off_left (ops : ConsumerOps R Cs S Res Red)
    (c : MapWithConsumer T U R Cs) : Cnt (MapWithConsumer T U R Cs) := fun n =>
  (⟨ops.split_off_left c.base, c.item, c.map_op⟩, n)

/-- Source `MapWithConsumer::to_reducer`: delegate to the downstream. -/
def MapWithConsumer.to_reducer (ops : ConsumerOps R Cs S Res Red)
    (c : MapWithConsumer T U R Cs) : Red :=
  ops.to_reducer c.base

/-- Consumer of `MapInit` (source: `struct MapInitConsumer`). -/
structure MapInitConsumer (T U R Cs : Type) where
  base : Cs
  init : Cnt U
  map_op : U → T → Cnt (U × R)

/-- Source `MapInitConsumer::split_at`: split the downstream consumer; both
branches share the initializer by reference; no closure is invoked. -/
def MapInitConsumer.split_at (ops : ConsumerOps R Cs S Res Red)
    (c : MapInitConsumer T U R Cs) (i : Nat) :
    Cnt (MapInitConsumer T U R Cs × MapInitConsumer T U R Cs × Red) := fun n =>
  let p := ops.split_at c.base i
  ((⟨p.1, c.init, c.map_op⟩, ⟨p.2.1, c.init, c.map_op⟩, p.2.2), n)

/-- Source `MapInitConsumer::into_folder`: the branch state is created
here, by one invocation of the initializer, before any item is consumed. -/
def MapInitConsumer.into_folder (ops : ConsumerOps R Cs S Res Red)
    (c : MapInitConsumer T U R Cs) : Cnt (MapWithFolder T U R S) := fun n =>
  let q := c.init n
  (⟨ops.into_folder c.base, q.1, c.map_op⟩, q.2)

/-- Source `MapInitConsumer::full`: delegate to the downstream consumer. -/
def MapInitConsumer.full (ops : ConsumerOps R Cs S Res Red)
    (c : MapInitConsumer T U R Cs) : Bool :=
  ops.full c.base

/-- Source `MapInitConsumer::split_off_left`: peel off the downstream left
consumer, sharing the initializer; no closure is invoked. -/
def MapInitConsumer.split_off_left (ops : ConsumerOps R Cs S Res Red)
    (c : MapInitConsumer T U R Cs) : Cnt (MapInitConsumer T U R Cs) := fun n =>
  (⟨ops.split_off_left c.base, c.init, c.map_op⟩, n)

/-- Shape of a drive's split tree: a leaf executes sequentially, a node
splits at the given index and drives the two halves. -/
inductive SplitTree where
  | leaf : SplitTree
  | node : Nat → SplitTree → SplitTree → SplitTree

/-- A split tree is valid for a length when every split index is within the
length of the branch it splits (Rust would panic on an out-of-range
index). -/
def SplitTree.valid : SplitTree → Nat → Bool
  | .leaf, _ => true
  | .node i tl tr, len => decide (i ≤ len) && tl.valid i && tr.valid (len - i)

/-- Number of leaf branches of a split tree. -/
def SplitTree.leaves : SplitTree → Nat
  | .leaf => 1
  | .node _ tl tr => tl.leaves + tr.leaves

/-- The contiguous segments of a list that the leaves of a split tree
cover, in left-to-right order. -/
def SplitTree.segs : SplitTree → List T → List (List T)
  | .leaf, l => [l]
  | .node i tl tr, l => tl.segs (l.take i) ++ tr.segs (l.drop i)

/-- Drive a `MapWith` producer along a split tree: a node calls `split_at`
and drives both halves, a leaf converts to the sequential iterator and
drains it; the two halves' outputs are recombined in index order. -/
def MapWithProducer.driveTree (p : MapWithProducer T U R) : SplitTree → Cnt (List R)
  | .leaf => drainF p.base.length p.into_iter
  | .node i tl tr => fun n =>
      let q := p.split_at i n
      let a := MapWithProducer.driveTree q.1.1 tl q.2
      let b := MapWithProducer.driveTree q.1.2 tr a.2
      (a.1 ++ b.1, b.2)

/-- Drive a `MapInit` producer along a split tree, leaves executing through
`into_iter`. -/
def MapInitProducer.driveTree (p : MapInitProducer T U R) : SplitTree → Cnt (List R)
  | .leaf => fun n =>
      let q := p.into_iter n
      drainF q.1.base.length q.1 q.2
  | .node i tl tr => fun n =>
      let q := p.split_at i n
      let a := MapInitProducer.driveTree q.1.1 tl q.2
      let b := MapInitProducer.driveTree q.1.2 tr a.2
      (a.1 ++ b.1, b.2)

/-- Running-sum mapping function of the spec's end-to-end example:
`map_op(state, x) = { *state += x; *state }`. -/
def sumOp : Nat → Nat → Nat × Nat := fun u x => (u + x, u + x)

theorem valid_take {i : Nat} (l : List T) (t : SplitTree) (hi : i ≤ l.length)
    (h : t.valid i = true) : t.valid (l.take i).length = true := by
  simpa [List.length_take, Nat.min_eq_left hi] using h

theorem valid_drop {i : Nat} (l : List T) (t : SplitTree)
    (h : t.valid (l.length - i) = true) : t.valid (l.drop i).length = true := by
  simpa [List.length_drop] using h

/-- C1: driving a MapWith producer along any valid split tree yields, for
every item, the mapped value of a pure sequential run of that item's own
leaf segment from a fresh copy of the initial state — the per-item output
is as if the branch ran alone, never observing a sibling branch's
mutations — and (with a silent instrumentation) the drive as a whole
leaves the invocation counter exactly as the per-branch sequential runs
would. -/
theorem mapWith_state_isolation (l : List T) (u : U) (g : U → T → U × R)
    (t : SplitTree) (n : Nat) :
    t.valid l.length = true →
      (MapWithProducer.mk l u (liftP g)).driveTree t n =
        ((((t.segs l).map fun seg => (seqRun g u seg).2).flatten), n) := by
  induction t generalizing l n with
  | leaf =>
      intro _
      simp [MapWithProducer.driveTree, MapWithProducer.into_iter, SplitTree.segs,
        drainF_eq_mapAccum, mapAccum_liftP]
  | node i tl tr ihl ihr =>
      intro h
      simp only [SplitTree.valid, Bool.and_eq_true, decide_eq_true_eq] at h
      obtain ⟨⟨hi, hl⟩, hr⟩ := h
      simp [MapWithProducer.driveTree, MapWithProducer.split_at, SplitTree.segs,
        ihl _ _ (valid_take l tl hi hl), ihr _ _ (valid_drop l tr hr)]

theorem mapWith_state_isolation_witness :
    (SplitTree.node 1 .leaf .leaf).valid ([5, 7, 9] : List Nat).length = true
  ∧ (MapWithProducer.mk [5, 7, 9] 0 (liftP sumOp)).driveTree (.node 1 .leaf .leaf) 0 =
      (((((SplitTree.node 1 .leaf .leaf).segs [5, 7, 9]).map
          fun seg => (seqRun sumOp 0 seg).2).flatten), 0) :=
  ⟨by decide, mapWith_state_isolation [5, 7, 9] 0 sumOp (.node 1 .leaf .leaf) 0 (by decide)⟩

theorem mapInit_driveTree_count (l : List T) (u0 : U) (g : U → T → U × R)
    (t : SplitTree) (n : Nat) :
    ((MapInitProducer.mk l (initC u0) (liftP g)).driveTree t n).2 = n + t.leaves := by
  induction t generalizing l n with
  | leaf =>
      simp [MapInitProducer.driveTree, MapInitProducer.into_iter, initC,
        SplitTree.leaves, drainF_eq_mapAccum, mapAccum_liftP]
  | node i tl tr ihl ihr =>
      simp [MapInitProducer.driveTree, MapInitProducer.split_at, SplitTree.leaves,
        ihl, ihr]
      omega

/-- C2: with a counting initializer, a full MapInit drive along any valid
split tree invokes the initializer exactly once per leaf (total = number of
leaves); `split_at` invokes it zero times, `into_iter`, `fold_with` and the
consumer's `into_folder` each invoke it exactly once at the moment the
branch commits to sequential execution, and a never-split (single-leaf)
drive invokes it exactly once. -/
theorem mapInit_init_once (l : List T) (u0 : U) (g : U → T → U × R)
    (t : SplitTree) (n : Nat) (_h : t.valid l.length = true) :
    ((MapInitProducer.mk l (initC u0) (liftP g)).driveTree t n).2 = n + t.leaves
  ∧ (∀ i : Nat, ((MapInitProducer.mk l (initC u0) (liftP g)).split_at i n).2 = n)
  ∧ (MapInitProducer.mk l (initC u0) (liftP g)).into_iter n = (⟨l, u0, liftP g⟩, n + 1)
  ∧ (∀ (S Res : Type) (ops : FolderOps R S Res) (s : S),
      ((MapInitProducer.mk l (initC u0) (liftP g)).fold_with ops s n).2 = n + 1)
  ∧ (∀ (Cs S Res Red : Type) (ops : ConsumerOps R Cs S Res Red) (cb : Cs),
      (MapInitConsumer.into_folder ops ⟨cb, initC u0, liftP g⟩ n).2 = n + 1)
  ∧ (∀ (Cs S Res Red : Type) (ops : ConsumerOps R Cs S Res Red) (cb : Cs) (i : Nat),
      (MapInitConsumer.split_at ops ⟨cb, initC u0, liftP g⟩ i n).2 = n
    ∧ (MapInitConsumer.split_off_left ops ⟨cb, initC u0, liftP g⟩ n).2 = n)
  ∧ ((MapInitProducer.mk l (initC u0) (liftP g)).driveTree .leaf n).2 = n + 1 := by
  refine ⟨mapInit_driveTree_count l u0 g t n, fun i => rfl, rfl, fun S Res ops s => ?_,
    fun Cs S Res Red ops cb => rfl, fun Cs S Res Red ops cb i => ⟨rfl, rfl⟩, ?_⟩
  · simp [MapInitProducer.fold_with, initC, foldConsume_eq_mapAccum, mapAccum_liftP]
  · simpa [SplitTree.leaves] using mapInit_driveTree_count l u0 g .leaf n

theorem mapInit_init_once_witness :
    (SplitTree.node 2 (.node 1 .leaf .leaf) .leaf).valid ([5, 7, 9] : List Nat).length = true
  ∧ ((MapInitProducer.mk [5, 7, 9] (initC 0) (liftP sumOp)).driveTree
        (.node 2 (.node 1 .leaf .leaf) .leaf) 0).2 =
      0 + (SplitTree.node 2 (.node 1 .leaf .leaf) .leaf).leaves :=
  ⟨by decide,
    (mapInit_init_once [5, 7, 9] 0 sumOp (.node 2 (.node 1 .leaf .leaf) .leaf) 0
      (by decide)).1⟩

/-- C3: mapping `[1,2,3,4,5]` with running-sum state through MapWith
sequentially yields `[1,3,6,10,15]`; after one split at index 2 the left
branch over `[1,2]` yields `[1,3]` and the right branch over `[3,4,5]`
yields `[3,7,12]`, the right branch's state starting again from 0. -/
theorem mapWith_runningSum_example :
    ((MapWithProducer.mk [1, 2, 3, 4, 5] 0 (liftP sumOp)).driveTree .leaf 0).1 =
        [1, 3, 6, 10, 15]
  ∧ (((MapWithProducer.mk [1, 2, 3, 4, 5] 0 (liftP sumOp)).split_at 2 0).1.1).base = [1, 2]
  ∧ (((MapWithProducer.mk [1, 2, 3, 4, 5] 0 (liftP sumOp)).split_at 2 0).1.2).base = [3, 4, 5]
  ∧ (drainF 2 (((MapWithProducer.mk [1, 2, 3, 4, 5] 0
        (liftP sumOp)).split_at 2 0).1.1).into_iter 0).1 = [1, 3]
  ∧ (drainF 3 (((MapWithProducer.mk [1, 2, 3, 4, 5] 0
        (liftP sumOp)).split_at 2 0).1.2).into_iter 0).1 = [3, 7, 12]
  ∧ (((MapWithProducer.mk [1, 2, 3, 4, 5] 0 (liftP sumOp)).split_at 2 0).1.2).item = 0 := by
  decide

/-- C4: `split_at` on the MapWith producer and consumer, and
`split_off_left` on the consumer, are pure structural operations: they
never invoke the mapping closure (the invocation counter is untouched),
they give each resulting branch an independent state equal in value to the
original (original on one side, clone on the other), they partition the
base exactly, and the consumer passes the downstream reducer through. -/
theorem mapWith_split_pure (p : MapWithProducer T U R) (i : Nat) (n : Nat) :
    ((p.split_at i n).1.1.item = p.item ∧ (p.split_at i n).1.2.item = p.item)
  ∧ (p.split_at i n).1.1.base ++ (p.split_at i n).1.2.base = p.base
  ∧ ((p.split_at i n).1.1.map_op = p.map_op ∧ (p.split_at i n).1.2.map_op = p.map_op)
  ∧ (p.split_at i n).2 = n
  ∧ (∀ (Cs S Res Red : Type) (ops : ConsumerOps R Cs S Res Red)
        (c : MapWithConsumer T U R Cs),
        ((MapWithConsumer.split_at ops c i n).1.1.item = c.item
          ∧ (MapWithConsumer.split_at ops c i n).1.2.1.item = c.item)
      ∧ (MapWithConsumer.split_at ops c i n).1.1.base = (ops.split_at c.base i).1
      ∧ (MapWithConsumer.split_at ops c i n).1.2.1.base = (ops.split_at c.base i).2.1
      ∧ (MapWithConsumer.split_at ops c i n).1.2.2 = (ops.split_at c.base i).2.2
      ∧ (MapWithConsumer.split_at ops c i n).2 = n
      ∧ (MapWithConsumer.split_off_left ops c n).1.item = c.item
      ∧ (MapWithConsumer.split_off_left ops c n).1.base = ops.split_off_left c.base
      ∧ (MapWithConsumer.split_off_left ops c n).2 = n) := by
  refine ⟨⟨rfl, rfl⟩, List.take_append_drop i p.base, ⟨rfl, rfl⟩, rfl, ?_⟩
  intro Cs S Res Red ops c
  exact ⟨⟨rfl, rfl⟩, rfl, rfl, rfl, rfl, rfl, rfl, rfl⟩

/-- Downstream collector that saturates after `N` items: consumes by
appending and reports `full` exactly once it holds at least `N` items, the
instrumented downstream consumer of the spec's saturation property. -/
def takeOps (N : Nat) : FolderOps R (List R) (List R) where
  consume := fun s r => s ++ [r]
  consume_iter := fun s l => s ++ l
  complete := fun s => s
  full := fun s => decide (N ≤ s.length)

/-- Modelled from the spec: the sequential bridge loop of the plumbing
layer (not under src), which feeds a producer's items one at a time into a
folder via `consume`, polling saturation first, since "folding must stop
feeding items once full() is observed true". -/
def foldGuarded (ops : FolderOps R S Res) :
    MapWithFolder T U R S → List T → Cnt (MapWithFolder T U R S)
  | fl, [] => fun n => (fl, n)
  | fl, t :: ts => fun n =>
      if MapWithFolder.full ops fl then (fl, n)
      else
        let p := MapWithFolder.consume ops fl t n
        foldGuarded ops p.1 ts p.2

theorem foldGuarded_takeOps (g : U → T → U × R) (N : Nat) (l : List T)
    (s : List R) (u : U) (n : Nat) :
    foldGuarded (takeOps N) ⟨s, u, liftC g⟩ l n =
      (⟨s ++ (seqRun g u (l.take (N - s.length))).2,
        (seqRun g u (l.take (N - s.length))).1, liftC g⟩,
       n + min l.length (N - s.length)) := by
  induction l generalizing s u n with
  | nil => simp [foldGuarded, seqRun]
  | cons t ts ih =>
      by_cases h : N ≤ s.length
      · have h0 : N - s.length = 0 := by omega
        simp [foldGuarded, MapWithFolder.full, takeOps, h, h0, seqRun]
      · have hm : N - s.length = (N - (s.length + 1)) + 1 := by omega
        have hfull : MapWithFolder.full (takeOps N)
            (⟨s, u, liftC g⟩ : MapWithFolder T U R (List R)) = false := by
          simp [MapWithFolder.full, takeOps, h]
        have step : foldGuarded (takeOps N)
              (⟨s, u, liftC g⟩ : MapWithFolder T U R (List R)) (t :: ts) n
            = foldGuarded (takeOps N) ⟨s ++ [(g u t).2], (g u t).1, liftC g⟩ ts (n + 1) := by
          simp only [foldGuarded, hfull, Bool.false_eq_true, if_false]
          rfl
        rw [step, ih, hm]
        simp only [List.take_succ_cons, seqRun, List.length_append, List.length_cons,
          List.length_nil, Nat.zero_add, Prod.mk.injEq, MapWithFolder.mk.injEq]
        refine ⟨⟨?_, ?_, trivial⟩, ?_⟩
        · simp
        · trivial
        · omega

/-- C5: the adapters' `full()` on both consumers and on the composite
folder is exactly the downstream saturation, and against a downstream
folder that is full after `N` items the (spec-modelled) guarded sequential
bridge invokes the counting mapping closure exactly `min len N ≤ N` times
and completes to the result of mapping only the first `N` items. -/
theorem mapWith_saturation (N : Nat) (l : List T) (u : U) (g : U → T → U × R) (n : Nat) :
    (foldGuarded (takeOps N) ⟨[], u, liftC g⟩ l n).2 = n + min l.length N
  ∧ MapWithFolder.complete (takeOps N) (foldGuarded (takeOps N) ⟨[], u, liftC g⟩ l n).1 =
      (seqRun g u (l.take N)).2
  ∧ (∀ (S Res : Type) (ops : FolderOps R S Res) (fl : MapWithFolder T U R S),
      MapWithFolder.full ops fl = ops.full fl.base)
  ∧ (∀ (Cs S Res Red : Type) (ops : ConsumerOps R Cs S Res Red)
        (c : MapWithConsumer T U R Cs), MapWithConsumer.full ops c = ops.full c.base)
  ∧ (∀ (Cs S Res Red : Type) (ops : ConsumerOps R Cs S Res Red)
        (c : MapInitConsumer T U R Cs), MapInitConsumer.full ops c = ops.full c.base) := by
  refine ⟨?_, ?_, fun S Res ops fl => rfl, fun Cs S Res Red ops c => rfl,
    fun Cs S Res Red ops c => rfl⟩
  · rw [foldGuarded_takeOps]
    simp
  · rw [foldGuarded_takeOps]
    simp [MapWithFolder.complete, takeOps]

/-- C6: `fold_with` on the MapWith and MapInit producers yields exactly the
result of converting the producer to its sequential iterator and feeding
the downstream folder item by item via `consume`; for MapInit both paths
invoke the initializer exactly once, before the first item. -/
theorem fold_with_eq_into_iter (pw : MapWithProducer T U R)
    (pi : MapInitProducer T U R) (ops : FolderOps R S Res) (s : S) (n : Nat)
    (l : List T) (u0 : U) (g : U → T → U × R) :
    pw.fold_with ops s n =
      (List.foldl ops.consume s (drainF pw.base.length pw.into_iter n).1,
        (drainF pw.base.length pw.into_iter n).2)
  ∧ pi.fold_with ops s n =
      (List.foldl ops.consume s
          (drainF (pi.into_iter n).1.base.length (pi.into_iter n).1 (pi.into_iter n).2).1,
        (drainF (pi.into_iter n).1.base.length (pi.into_iter n).1 (pi.into_iter n).2).2)
  ∧ ((MapInitProducer.mk l (initC u0) (liftP g)).fold_with ops s n).2 = n + 1
  ∧ ((MapInitProducer.mk l (initC u0) (liftP g)).into_iter n).2 = n + 1 := by
  refine ⟨?_, ?_, ?_, rfl⟩
  · simp [MapWithProducer.fold_with, MapWithProducer.into_iter,
      foldConsume_eq_mapAccum, drainF_eq_mapAccum]
  · simp [MapInitProducer.fold_with, MapInitProducer.into_iter,
      foldConsume_eq_mapAccum, drainF_eq_mapAccum]
  · simp [MapInitProducer.fold_with, initC, foldConsume_eq_mapAccum, mapAccum_liftP]

/-- C7: MapWithFolder's `consume_iter` over any finite sequence equals
repeated `consume` of the items in order — the composite folders are equal,
so the subsequent `complete()` result, `full()` status and final branch
state agree — assuming the wrapped downstream folder's own `consume_iter`
is repeated `consume`. -/
theorem mapWith_consume_iter_eq (ops : FolderOps R S Res)
    (hops : ∀ (s : S) (rs : List R), ops.consume_iter s rs = List.foldl ops.consume s rs)
    (fl : MapWithFolder T U R S) (l : List T) (n : Nat) :
    MapWithFolder.consume_iter ops fl l n = foldConsume ops fl l n
  ∧ MapWithFolder.complete ops (MapWithFolder.consume_iter ops fl l n).1 =
      MapWithFolder.complete ops (foldConsume ops fl l n).1
  ∧ MapWithFolder.full ops (MapWithFolder.consume_iter ops fl l n).1 =
      MapWithFolder.full ops (foldConsume ops fl l n).1
  ∧ (MapWithFolder.consume_iter ops fl l n).1.item = (foldConsume ops fl l n).1.item := by
  have key : MapWithFolder.consume_iter ops fl l n = foldConsume ops fl l n := by
    obtain ⟨s, u, f⟩ := fl
    simp [MapWithFolder.consume_iter, foldConsume_eq_mapAccum, hops]
  exact ⟨key, by rw [key], by rw [key], by rw [key]⟩

/-- Concrete downstream folder collecting into a list, whose bulk
`consume_iter` is by definition repeated `consume`. -/
def listOps : FolderOps Nat (List Nat) (List Nat) where
  consume := fun s r => s ++ [r]
  consume_iter := fun s rs => List.foldl (fun s r => s ++ [r]) s rs
  complete := fun s => s
  full := fun _ => false

theorem mapWith_consume_iter_eq_witness :
    listOps.consume_iter [5] [1, 2] = List.foldl listOps.consume [5] [1, 2]
  ∧ MapWithFolder.consume_iter listOps ⟨[], 0, liftC sumOp⟩ [1, 2, 3] 0 =
      foldConsume listOps ⟨[], 0, liftC sumOp⟩ [1, 2, 3] 0 :=
  ⟨rfl,
    (mapWith_consume_iter_eq listOps (fun _ _ => rfl) ⟨[], 0, liftC sumOp⟩ [1, 2, 3] 0).1⟩

/-- C8: the leaf iterator is double-ended — `next_back` yields the mapped
last remaining item and removes it — and exact-sized: its `size_hint` is
the base iterator's size hint, an exact remaining count which the mapping
does not change and which drops by one per pull. -/
theorem mapWithIter_double_ended (it : MapWithIter T U R) (l : List T) (t : T)
    (h : it.base = l ++ [t]) (n : Nat) :
    it.size_hint = listSizeHint it.base
  ∧ it.size_hint = (it.base.length, some it.base.length)
  ∧ it.next_back n =
      ((some (it.map_op it.item t n).1.2,
        ⟨l, (it.map_op it.item t n).1.1, it.map_op⟩), (it.map_op it.item t n).2)
  ∧ ((it.next n).1.2).size_hint = (it.base.length - 1, some (it.base.length - 1))
  ∧ MapWithIter.next_back (⟨[], it.item, it.map_op⟩ : MapWithIter T U R) n =
      ((none, ⟨[], it.item, it.map_op⟩), n) := by
  obtain ⟨b, u, f⟩ := it
  simp only at h
  subst h
  refine ⟨rfl, rfl, ?_, ?_, rfl⟩
  · simp [MapWithIter.next_back, List.getLast?_concat, List.dropLast_concat]
  · cases l with
    | nil => simp [MapWithIter.next, MapWithIter.size_hint, listSizeHint]
    | cons a l2 => simp [MapWithIter.next, MapWithIter.size_hint, listSizeHint]

theorem mapWithIter_double_ended_witness :
    ([1, 2] : List Nat) = [1] ++ [2]
  ∧ MapWithIter.next_back (⟨[1, 2], 0, liftP sumOp⟩ : MapWithIter Nat Nat Nat) 0 =
      ((some 2, ⟨[1], 2, liftP sumOp⟩), 0) := by
  refine ⟨rfl, ?_⟩
  have h := (mapWithIter_double_ended
    (⟨[1, 2], 0, liftP sumOp⟩ : MapWithIter Nat Nat Nat) [1] 2 rfl 0).2.2.1
  simpa using h

/-- C9: MapInit invokes the initializer once per leaf even for a leaf with
zero items: an empty branch obtained by splitting at index 0 or at the full
length still invokes the initializer exactly once inside `into_iter`,
before any item is pulled (the first pull returns none without invoking
anything), the consumer's `into_folder` invokes it exactly once regardless
of items, and a drive whose split tree has an empty leaf still counts every
leaf. -/
theorem mapInit_empty_leaf_init (l : List T) (u0 : U) (g : U → T → U × R) (n m : Nat) :
    ((MapInitProducer.mk l (initC u0) (liftP g)).split_at 0 n).1.1.base = ([] : List T)
  ∧ ((MapInitProducer.mk l (initC u0) (liftP g)).split_at l.length n).1.2.base = ([] : List T)
  ∧ ((MapInitProducer.mk l (initC u0) (liftP g)).split_at 0 n).2 = n
  ∧ MapInitProducer.into_iter ((MapInitProducer.mk l (initC u0) (liftP g)).split_at 0 n).1.1 m
      = (⟨[], u0, liftP g⟩, m + 1)
  ∧ MapWithIter.next (⟨[], u0, liftP g⟩ : MapWithIter T U R) m =
      ((none, ⟨[], u0, liftP g⟩), m)
  ∧ (∀ (Cs S Res Red : Type) (ops : ConsumerOps R Cs S Res Red) (cb : Cs),
      MapInitConsumer.into_folder ops ⟨cb, initC u0, liftP g⟩ m =
        (⟨ops.into_folder cb, u0, liftP g⟩, m + 1))
  ∧ ((MapInitProducer.mk l (initC u0) (liftP g)).driveTree (.node 0 .leaf .leaf) n).2 =
      n + 2 := by
  refine ⟨rfl, ?_, rfl, rfl, rfl, fun Cs S Res Red ops cb => rfl, ?_⟩
  · simp [MapInitProducer.split_at]
  · simpa [SplitTree.leaves] using
      mapInit_driveTree_count l u0 g (.node 0 .leaf .leaf) n

theorem drainB_eq_mapAccum_reverse (f : U → T → Cnt (U × R)) (u : U) (l : List T)
    (n : Nat) :
    drainB l.length ⟨l, u, f⟩ n =
      ((mapAccum f u l.reverse n).1.2, (mapAccum f u l.reverse n).2) := by
  induction l using List.reverseRecOn generalizing u n with
  | nil => rfl
  | append_singleton l2 t ih =>
      simp [drainB, MapWithIter.next_back, List.getLast?_concat, List.dropLast_concat,
        mapAccum, ih]

/-- C10: `next` and `next_back` mutate the same single branch-local state,
so mapped values follow consumption order, not index positions: draining a
branch entirely from the back equals a sequential run over the reversed
item sequence; concretely, the running-sum branch `[1,2,3]` drained
backward yields `[3,5,6]` — the sequential run over `[3,2,1]`, not the
reverse of the forward run's `[1,3,6]` — and a `next` followed by a
`next_back` applies the back pull to the state already mutated by the
front pull. -/
theorem mapWithIter_consumption_order (f : U → T → Cnt (U × R)) (u : U) (l : List T)
    (n : Nat) :
    drainB l.length ⟨l, u, f⟩ n =
      ((mapAccum f u l.reverse n).1.2, (mapAccum f u l.reverse n).2)
  ∧ (drainB 3 (⟨[1, 2, 3], 0, liftP sumOp⟩ : MapWithIter Nat Nat Nat) 0).1 = [3, 5, 6]
  ∧ (seqRun sumOp 0 [3, 2, 1]).2 = [3, 5, 6]
  ∧ (drainF 3 (⟨[1, 2, 3], 0, liftP sumOp⟩ : MapWithIter Nat Nat Nat) 0).1 = [1, 3, 6]
  ∧ (drainB 3 (⟨[1, 2, 3], 0, liftP sumOp⟩ : MapWithIter Nat Nat Nat) 0).1 ≠
      List.reverse (drainF 3 (⟨[1, 2, 3], 0, liftP sumOp⟩ : MapWithIter Nat Nat Nat) 0).1
  ∧ MapWithIter.next_back
        ((MapWithIter.next (⟨[1, 2, 3], 0, liftP sumOp⟩ : MapWithIter Nat Nat Nat) 0).1.2)
        ((MapWithIter.next (⟨[1, 2, 3], 0, liftP sumOp⟩ : MapWithIter Nat Nat Nat) 0).2) =
      ((some 4, ⟨[2], 4, liftP sumOp⟩), 0) := by
  exact ⟨drainB_eq_mapAccum_reverse f u l n, by decide, by decide, by decide, by decide,
    by rfl⟩

end RayonMapWith
